import Mathlib

/-!
# Verification of the crypto trading bot core

A shallow embedding of the trading-bot core (trade manager with trailing
stop-loss, precision listing scheduler, sliding-window rate limiter and
crash-safe JSON store), together with theorems settling the frozen claims
about it.

Modelling conventions:
* `decimal.js` arbitrary-precision decimal values (prices, quantities,
  percentages) are modelled as exact rationals (`Rat`).  The code performs
  only multiplications, subtractions, divisions by `100` and comparisons on
  these, for which exact rational arithmetic is the intended semantics.
* JavaScript `Date` instants are modelled as natural numbers of epoch
  milliseconds.
* Fields that are persisted as strings (via `Decimal.toString` /
  `new Decimal(s)` and `Date.toISOString` / `new Date(s)`, exact inverse
  codec pairs provided by external libraries) are modelled by the encoded
  value itself; what the repository's own code does with them — which
  fields are copied, dropped, recomputed — is modelled exactly.
* Asynchronous I/O (price fetches, order placement, file-system calls) is
  modelled by passing the outcome of each call in explicitly, so that a
  run of a loop is a pure function of its input outcomes.
-/

namespace CryptoBot

/-- Trading configuration, from `src/types.ts` (`TradingConfig`).
Percentages and amounts are `decimal.js` values, modelled as rationals. -/
structure TradingConfig where
  stopLossPct : Rat
  trailingPct : Rat
  maxTradeAmount : Rat
  checkInterval : Nat
  maxRetries : Nat
  retryDelay : Nat
  quoteCurrency : String
deriving DecidableEq, Repr

/-- The trade record that `manager.ts` actually constructs at runtime
(`startMonitoring`'s object literal and `deserializeTrade`'s return
value).  Note: the `TradeState` interface declared in `src/types.ts`
additionally declares an `investedQuote` field which the manager never
writes; the declared shape is modelled separately as `TradeState` below. -/
structure TradeStateRt where
  market : String
  buyPrice : Rat
  quantity : Rat
  currentPrice : Rat
  highestPrice : Rat
  trailingStopPrice : Rat
  stopLossPrice : Rat
  startTime : Nat
  lastUpdate : Nat
deriving DecidableEq, Repr

/-- The fresh trade state built by `TradeManager.startMonitoring`
(`manager.ts` lines 313–327): stop prices are recomputed from the buy
price and the configuration, current and highest price start at the buy
price, and both timestamps are the wall clock at the moment of the call. -/
def freshTrade (cfg : TradingConfig) (symbol : String) (buyPrice quantity : Rat)
    (now : Nat) : TradeStateRt :=
  { market := symbol
    buyPrice := buyPrice
    quantity := quantity
    currentPrice := buyPrice
    highestPrice := buyPrice
    trailingStopPrice := buyPrice * (1 - cfg.trailingPct / 100)
    stopLossPrice := buyPrice * (1 - cfg.stopLossPct / 100)
    startTime := now
    lastUpdate := now }

/-- One price observation applied to a trade (`monitorTrade`,
`manager.ts` lines 362–375): `currentPrice` and `lastUpdate` are always
set; `highestPrice` and `trailingStopPrice` are recomputed only when the
fetched price strictly exceeds the recorded highest price. -/
def updateOnPrice (cfg : TradingConfig) (t : TradeStateRt) (p : Rat) (now : Nat) :
    TradeStateRt :=
  let t1 := { t with currentPrice := p, lastUpdate := now }
  if t.highestPrice < p then
    { t1 with highestPrice := p, trailingStopPrice := p * (1 - cfg.trailingPct / 100) }
  else t1

/-- Exit reasons recorded for a completed trade (`manager.ts`
`executeSell`). -/
inductive ExitReason where
  | stop_loss
  | trailing_stop
  | manual
deriving DecidableEq, Repr

/-- Outcome of a single monitoring-loop iteration. -/
inductive StepOutcome where
  | keepOpen (t : TradeStateRt)
  | exitTrade (r : ExitReason) (t : TradeStateRt)
deriving DecidableEq, Repr

/-- One iteration of the monitoring loop (`monitorTrade`, `manager.ts`
lines 346–406) for a given fetched price.  `none` models a failed price
fetch: the loop logs and retries without mutating the trade.  On a fetched
price the trade is updated, then the exit conditions are evaluated in the
code's order: trailing stop (requires price strictly above buy price)
before fixed stop loss. -/
def monitorStep (cfg : TradingConfig) (t : TradeStateRt) (price? : Option Rat)
    (now : Nat) : StepOutcome :=
  match price? with
  | none => .keepOpen t
  | some p =>
    let t' := updateOnPrice cfg t p now
    if p < t'.trailingStopPrice ∧ t'.buyPrice < p then .exitTrade .trailing_stop t'
    else if p < t'.stopLossPrice then .exitTrade .stop_loss t'
    else .keepOpen t'

/-- A position is either still monitored or closed with a recorded
reason; once closed, the monitoring loop has exited (`break`) and never
touches the trade again. -/
inductive MonState where
  | opened (t : TradeStateRt)
  | closed (r : ExitReason) (t : TradeStateRt)
deriving DecidableEq, Repr

/-- Advance the position by one monitoring iteration. -/
def monAdvance (cfg : TradingConfig) (now : Nat) (s : MonState) (price? : Option Rat) :
    MonState :=
  match s with
  | .closed r t => .closed r t
  | .opened t =>
    match monitorStep cfg t price? now with
    | .keepOpen t' => .opened t'
    | .exitTrade r t' => .closed r t'

/-- The sequence of position states produced by the monitoring loop on a
given sequence of price-fetch outcomes, starting from the state
`startMonitoring` creates. -/
def monStates (cfg : TradingConfig) (symbol : String) (buyPrice quantity : Rat)
    (now : Nat) (prices : List (Option Rat)) : List MonState :=
  List.scanl (monAdvance cfg now) (.opened (freshTrade cfg symbol buyPrice quantity now)) prices

/-- The trailing-stop price carried by a position state. -/
def trailingOf : MonState → Rat
  | .opened t => t.trailingStopPrice
  | .closed _ t => t.trailingStopPrice

/-- Invariant of the monitoring loop: while the position is open, the
trailing stop always equals `highestPrice * (1 - trailingPct/100)`. -/
def TrailInv (cfg : TradingConfig) : MonState → Prop
  | .opened t => t.trailingStopPrice = t.highestPrice * (1 - cfg.trailingPct / 100)
  | .closed _ _ => True

/-! ## Trade manager state: `startMonitoring` and `restoreMonitoring` -/

/-- Association-map update (JS `Map.set`). -/
def tmSet (m : List (String × TradeStateRt)) (k : String) (v : TradeStateRt) :
    List (String × TradeStateRt) :=
  (k, v) :: m.filter (fun kv => !(kv.1 == k))

/-- Association-map lookup (JS `Map.get`). -/
def tmGet (m : List (String × TradeStateRt)) (k : String) : Option TradeStateRt :=
  (m.find? (fun kv => kv.1 == k)).map (·.2)

/-- In-memory state of a `TradeManager`: the `activeTrades` map, the set of
symbols with a running monitoring task (`monitoringTasks` keys), and the
shutdown flag. -/
structure ManagerState where
  activeTrades : List (String × TradeStateRt)
  monitoringTasks : List String
  shuttingDown : Bool
deriving DecidableEq, Repr

/-- `TradeManager.startMonitoring` (`manager.ts` lines 306–338): if a
monitoring task for the symbol already exists it logs a warning and
returns without any state change (and without throwing — the function is
total); otherwise it stores a fresh trade state and registers a
monitoring task.  Persistence and the spawned loop are I/O effects not
reflected in the returned state. -/
def startMonitoring (cfg : TradingConfig) (s : ManagerState) (symbol : String)
    (buyPrice quantity : Rat) (now : Nat) : ManagerState :=
  if symbol ∈ s.monitoringTasks then s
  else
    { s with
      activeTrades := tmSet s.activeTrades symbol (freshTrade cfg symbol buyPrice quantity now)
      monitoringTasks := s.monitoringTasks ++ [symbol] }

/-! ## Serialization (`serializeTrade` / `deserializeTrade`)

`src/types.ts` (lines 36–47) declares the `TradeState` interface with an
`investedQuote` field.  The object literals in `manager.ts` — both
`serializeTrade`'s result and `deserializeTrade`'s / `startMonitoring`'s
trade records — omit that field (a TypeScript type error against the
declared `SerializedTradeState` / `TradeState` shapes; `index.ts` already
passes `buyResult.investedQuote` as a fourth argument to the three-argument
`startMonitoring`, another type error, so the field was added to the types
but not yet threaded through the manager).  String-encoded fields are
modelled by the encoded value (the library codecs are exact inverses). -/

/-- The `TradeState` interface as declared in `src/types.ts`, including
`investedQuote`. -/
structure TradeState where
  market : String
  buyPrice : Rat
  quantity : Rat
  investedQuote : Rat
  currentPrice : Rat
  highestPrice : Rat
  trailingStopPrice : Rat
  stopLossPrice : Rat
  startTime : Nat
  lastUpdate : Nat
deriving DecidableEq, Repr

/-- The record that `serializeTrade` (`manager.ts` lines 32–44) actually
returns: the nine fields of its object literal.  `investedQuote` is not
among them. -/
structure SerializedTradeState where
  market : String
  buyPrice : Rat
  quantity : Rat
  currentPrice : Rat
  highestPrice : Rat
  trailingStopPrice : Rat
  stopLossPrice : Rat
  startTime : Nat
  lastUpdate : Nat
deriving DecidableEq, Repr

/-- `TradeManager.serializeTrade` (`manager.ts` lines 32–44): field-by-field
copy of exactly the nine fields listed in the source's object literal. -/
def serializeTrade (t : TradeState) : SerializedTradeState :=
  { market := t.market
    buyPrice := t.buyPrice
    quantity := t.quantity
    currentPrice := t.currentPrice
    highestPrice := t.highestPrice
    trailingStopPrice := t.trailingStopPrice
    stopLossPrice := t.stopLossPrice
    startTime := t.startTime
    lastUpdate := t.lastUpdate }

/-- `TradeManager.deserializeTrade` (`manager.ts` lines 49–61): rebuilds the
nine-field runtime record from a persisted record. -/
def deserializeTrade (d : SerializedTradeState) : TradeStateRt :=
  { market := d.market
    buyPrice := d.buyPrice
    quantity := d.quantity
    currentPrice := d.currentPrice
    highestPrice := d.highestPrice
    trailingStopPrice := d.trailingStopPrice
    stopLossPrice := d.stopLossPrice
    startTime := d.startTime
    lastUpdate := d.lastUpdate }

/-- One iteration of `TradeManager.restoreMonitoring`'s loop (`manager.ts`
lines 86–95) for a persisted record: deserialize it, put it into
`activeTrades`, then call `startMonitoring` with the persisted `buyPrice`
and `quantity` (which, absent a running task for the symbol, overwrites the
just-stored record with a fresh one). -/
def restoreOne (cfg : TradingConfig) (s : ManagerState) (d : SerializedTradeState)
    (now : Nat) : ManagerState :=
  let trade := deserializeTrade d
  let s1 := { s with activeTrades := tmSet s.activeTrades trade.market trade }
  startMonitoring cfg s1 trade.market trade.buyPrice trade.quantity now

/-! ## Sell-side quantity rounding (`executeSell`) -/

/-- Truncation toward zero (`decimal.js` `ROUND_DOWN`). -/
def truncTowardZero (x : Rat) : Int :=
  if 0 ≤ x then ⌊x⌋ else -⌊-x⌋

/-- `Decimal.toDecimalPlaces(dp, Decimal.ROUND_DOWN)`: keep `dp` decimal
places, truncating toward zero. -/
def toDecimalPlacesDown (dp : Nat) (q : Rat) : Rat :=
  ((truncTowardZero (q * 10 ^ dp) : Rat)) / 10 ^ dp

/-- The quantity `TradeManager.executeSell` (`manager.ts` lines 426–440)
submits: with no precision available (`getSymbolPrecision` returned
`null`) the full stored quantity, otherwise the quantity rounded down to
`precision` decimal places. -/
def sellQuantityFor (precision : Option Nat) (quantity : Rat) : Rat :=
  match precision with
  | none => quantity
  | some p => toDecimalPlacesDown p quantity

/-- The front half of `executeSell` up to order submission: `none` only
when the symbol has no active trade; otherwise the sell is submitted with
`sellQuantityFor` of the stored quantity (the precision-`null` path does
not abort). -/
def executeSellSubmits (trade? : Option TradeStateRt) (precision : Option Nat) :
    Option Rat :=
  match trade? with
  | none => none
  | some t => some (sellQuantityFor precision t.quantity)

/-! ## Listing scheduler: timer setup (`setupListingTimer`) -/

/-- Scheduler configuration (`listing-scheduler.ts` `SchedulerConfig`):
the grace window in seconds and the retry interval in milliseconds. -/
structure SchedulerConfig where
  maxWaitAfterListing : Nat
  retryInterval : Nat
deriving DecidableEq, Repr

/-- The constructor's default configuration: 180 s grace window, 100 ms
retry interval. -/
def defaultSchedulerConfig : SchedulerConfig :=
  { maxWaitAfterListing := 180, retryInterval := 100 }

/-- Status of a scheduled listing. -/
inductive ListingStatus where
  | pending
  | active
  | completed
  | missed
deriving DecidableEq, Repr

/-- The action `ListingScheduler.setupListingTimer` (`listing-scheduler.ts`
lines 214–263) takes for a listing. -/
inductive SetupAction where
  | skip
  | executeNow
  | markMissed
  | armTimer (delayMs : Nat)
deriving DecidableEq, Repr

/-- `setupListingTimer`, taking the current wall clock and the listing's
target time in epoch milliseconds: skip when a timer for the identity key
already exists; when the listing time has passed, execute immediately if
still within the grace window, otherwise mark the listing missed; when the
listing time is in the future, arm a timer for the remaining delay. -/
def setupListingTimer (cfg : SchedulerConfig) (timerExists : Bool)
    (now listingTime : Nat) : SetupAction :=
  if timerExists then .skip
  else if listingTime ≤ now then
    if now ≤ listingTime + cfg.maxWaitAfterListing * 1000 then .executeNow
    else .markMissed
  else .armTimer (listingTime - now)

/-- Whether a setup action invokes the trade executor: only immediate
execution does (`executeScheduledTrade` is the sole caller of
`tradeExecutor`); `markListingMissed` only updates the listing's status
and persists. -/
def setupInvokesExecutor : SetupAction → Bool
  | .executeNow => true
  | _ => false

/-! ## Listing scheduler: retry-until-deadline execution
(`executeScheduledTrade`) -/

/-- Outcome of one call to the registered trade executor: a returned
boolean, or a thrown/rejected promise. -/
inductive ExecOutcome where
  | ok (success : Bool)
  | thrown
deriving DecidableEq, Repr

/-- Result of a run of `executeScheduledTrade`'s retry loop
(`listing-scheduler.ts` lines 268–313): the listing's final status, the
number of executor invocations, the wall clock of the last invocation (if
any), and the wall clock when the loop returned. -/
structure ExecResult where
  status : ListingStatus
  attempts : Nat
  lastCallTime : Option Nat
  endClock : Nat
deriving DecidableEq, Repr

/-- The retry loop of `executeScheduledTrade`: while
`Date.now() - startTime < maxWaitAfterListing * 1000`, invoke the executor
(indexed by its 1-based attempt number); a returned `true` marks the
listing completed, a returned `false` or a thrown call sleeps
`retryInterval` and retries; when the deadline is crossed the listing is
marked missed.  Executor calls are modelled as instantaneous; time
advances by `retryInterval` per failed attempt.  `fuel` bounds the
recursion; `none` (never reached when `0 < retryInterval`, see the
theorems) signals exhausted fuel. -/
def tradeLoopGo (cfg : SchedulerConfig) (executor : Nat → ExecOutcome)
    (startTime : Nat) : Nat → Nat → Nat → Option Nat → Option ExecResult
  | 0, clock, attempts, lastCall =>
    if clock - startTime < cfg.maxWaitAfterListing * 1000 then none
    else some ⟨.missed, attempts, lastCall, clock⟩
  | fuel + 1, clock, attempts, lastCall =>
    if clock - startTime < cfg.maxWaitAfterListing * 1000 then
      match executor (attempts + 1) with
      | .ok true => some ⟨.completed, attempts + 1, some clock, clock⟩
      | .ok false =>
        tradeLoopGo cfg executor startTime fuel (clock + cfg.retryInterval)
          (attempts + 1) (some clock)
      | .thrown =>
        tradeLoopGo cfg executor startTime fuel (clock + cfg.retryInterval)
          (attempts + 1) (some clock)
    else some ⟨.missed, attempts, lastCall, clock⟩

/-- `executeScheduledTrade`'s loop started at wall clock `startTime`
(`startTime = Date.now()` at loop entry; the fuel `180 * 1000 + 1` is
sufficient for the default configuration since every failed attempt
advances the clock by at least 1 ms). -/
def executeScheduledTrade (cfg : SchedulerConfig) (executor : Nat → ExecOutcome)
    (startTime : Nat) : Option ExecResult :=
  tradeLoopGo cfg executor startTime (cfg.maxWaitAfterListing * 1000 + 1) startTime 0 none

/-! ## Sliding-window rate limiter (`mexc.ts` `RateLimiter`) -/

/-- Prune request timestamps that have aged out of the trailing window
(`this.requests.filter((timestamp) => now - timestamp < this.window)`). -/
def rlPrune (window now : Nat) (reqs : List Nat) : List Nat :=
  reqs.filter (fun t => now - t < window)

/-- One `acquire()` call (`mexc.ts` lines 19–37), with the sleeps made
explicit: prune the timestamp list; if it still holds `limit` or more
entries, compute `waitTime = window - (now - oldest)`, sleep exactly that
long and retry (`return this.acquire()`), otherwise record `now` and
return.  The `Except.error` case is the code's
`throw new Error('Rate limiter error: ...')` when the list is
simultaneously empty and at the limit.  `none` signals exhausted fuel
(never reached with fuel `reqs.length + 1`, see `rlAcquire_ok`). -/
def rlAcquireGo (limit window : Nat) : Nat → List Nat → Nat →
    Option (Except Unit (List Nat × Nat))
  | 0, _, _ => none
  | fuel + 1, reqs, now =>
    let pruned := rlPrune window now reqs
    if limit ≤ pruned.length then
      match pruned with
      | [] => some (.error ())
      | oldest :: _ =>
        rlAcquireGo limit window fuel pruned (now + (window - (now - oldest)))
    else
      some (.ok (pruned ++ [now], now))

/-- `acquire()` with sufficient fuel. -/
def rlAcquire (limit window : Nat) (reqs : List Nat) (now : Nat) :
    Option (Except Unit (List Nat × Nat)) :=
  rlAcquireGo limit window (reqs.length + 1) reqs now

/-- A sequence of `acquire()` calls issued one after another: `deltas`
lists how much wall-clock time passes between one call's return and the
next call's start (0 = back-to-back).  Returns the history of initiation
timestamps recorded by the limiter. -/
def rlRun (limit window : Nat) : List Nat → List Nat → Nat → List Nat →
    Option (Except Unit (List Nat))
  | [], _, _, hist => some (.ok hist)
  | d :: ds, reqs, clock, hist =>
    match rlAcquire limit window reqs (clock + d) with
    | none => none
    | some (.error e) => some (.error e)
    | some (.ok (reqs', t)) => rlRun limit window ds reqs' t (hist ++ [t])

/-- Number of recorded request initiations inside the trailing window
`(s - window, s]`. -/
def windowCount (window : Nat) (hist : List Nat) (s : Nat) : Nat :=
  (hist.filter (fun t => decide (t ≤ s ∧ s < t + window))).length

/-! ## Crash-safe store (`persistence.ts` `saveJson`) -/

/-- A flat file system: file name to content. -/
def FileSys := List (String × String)

instance : DecidableEq FileSys := by
  unfold FileSys
  exact inferInstance

/-- File lookup. -/
def fsGet (fs : FileSys) (k : String) : Option String :=
  (List.find? (fun kv => kv.1 == k) fs).map (·.2)

/-- Write (create or overwrite) a file. -/
def fsSet (fs : FileSys) (k v : String) : FileSys :=
  (k, v) :: List.filter (fun kv => !(kv.1 == k)) fs

/-- Remove a file if present. -/
def fsRemove (fs : FileSys) (k : String) : FileSys :=
  List.filter (fun kv => !(kv.1 == k)) fs

/-- Which primitive file-system calls inside one `saveJson` invocation
fail (thrown errors injected by the environment). `unlinkTargetFails` is a
non-`ENOENT` failure of the pre-rename unlink (an absent target is
`ENOENT` and is ignored by the code). -/
structure SaveFailure where
  writeTempFails : Bool
  unlinkTargetFails : Bool
  renameFails : Bool
  cleanupUnlinkFails : Bool
deriving DecidableEq, Repr

instance {e a : Type} [DecidableEq e] [DecidableEq a] : DecidableEq (Except e a) :=
  fun x y =>
  match x, y with
  | .ok v, .ok w =>
    if h : v = w then isTrue (by rw [h]) else isFalse (fun hh => h (by injection hh))
  | .error v, .error w =>
    if h : v = w then isTrue (by rw [h]) else isFalse (fun hh => h (by injection hh))
  | .ok _, .error _ => isFalse (fun hh => Except.noConfusion hh)
  | .error _, .ok _ => isFalse (fun hh => Except.noConfusion hh)

/-- No injected failures. -/
def noFailure : SaveFailure :=
  { writeTempFails := false, unlinkTargetFails := false
    renameFails := false, cleanupUnlinkFails := false }

/-- The body of `saveJson` (`persistence.ts` lines 466–518, the queued
write operation): write the serialized data to `<file>.tmp`; unlink the
target, ignoring `ENOENT`; rename the temp file onto the target.  Any
thrown step jumps to the catch block, which tries to unlink the temp file
(ignoring cleanup errors) and rethrows — modelled as `Except.error`.  A
failed `writeFile` is modelled as leaving no temp file behind. -/
def saveJson (fs : FileSys) (filename content : String) (f : SaveFailure) :
    FileSys × Except Unit Unit :=
  let tempPath := filename ++ ".tmp"
  let cleanup := fun (fs1 : FileSys) =>
    if f.cleanupUnlinkFails then fs1 else fsRemove fs1 tempPath
  if f.writeTempFails then
    (cleanup fs, .error ())
  else
    let fs1 := fsSet fs tempPath content
    match fsGet fs1 filename with
    | none =>
      if f.renameFails then (cleanup fs1, .error ())
      else (fsSet (fsRemove fs1 tempPath) filename content, .ok ())
    | some _ =>
      if f.unlinkTargetFails then (cleanup fs1, .error ())
      else
        let fs2 := fsRemove fs1 filename
        if f.renameFails then (cleanup fs2, .error ())
        else (fsSet (fsRemove fs2 tempPath) filename content, .ok ())

/-! ## Helper lemmas -/

theorem updateOnPrice_buyPrice (cfg : TradingConfig) (t : TradeStateRt) (p : Rat)
    (n : Nat) : (updateOnPrice cfg t p n).buyPrice = t.buyPrice := by
  unfold updateOnPrice
  split <;> rfl

theorem tmGet_tmSet_self (m : List (String × TradeStateRt)) (k : String)
    (v : TradeStateRt) : tmGet (tmSet m k v) k = some v := by
  simp [tmGet, tmSet, List.find?_cons]

theorem find?_filter_of_imp {α : Type} (p q : α → Bool)
    (h : ∀ a, p a = true → q a = true) :
    ∀ l : List α, (l.filter q).find? p = l.find? p := by
  intro l
  induction l with
  | nil => rfl
  | cons a l ih =>
    by_cases hq : q a = true
    · by_cases hp : p a = true
      · simp [List.filter_cons, hq, List.find?_cons, hp]
      · simp [List.filter_cons, hq, List.find?_cons, hp, ih]
    · have hp : ¬ p a = true := fun hp => hq (h a hp)
      simp [List.filter_cons, hq, List.find?_cons, hp, ih]

theorem fsGet_fsSet_self (fs : FileSys) (k v : String) :
    fsGet (fsSet fs k v) k = some v := by
  simp [fsGet, fsSet, List.find?_cons]

theorem filter_ne_key_imp {k k' : String} (h : k ≠ k') :
    ∀ a : String × String, (a.1 == k) = true → (!(a.1 == k')) = true := by
  intro a ha
  have hak : a.1 = k := by simpa using ha
  rw [hak]
  simp [h]

theorem fsGet_fsSet_ne (fs : FileSys) {k k' : String} (h : k ≠ k') (v : String) :
    fsGet (fsSet fs k' v) k = fsGet fs k := by
  unfold fsGet fsSet
  rw [List.find?_cons_of_neg _ (by simp; exact fun hk => h hk.symm)]
  rw [find?_filter_of_imp _ _ (filter_ne_key_imp h) fs]

theorem fsGet_fsRemove_self (fs : FileSys) (k : String) :
    fsGet (fsRemove fs k) k = none := by
  unfold fsGet fsRemove
  have hnone : List.find? (fun kv => kv.1 == k)
      (List.filter (fun kv => !(kv.1 == k)) fs) = none := by
    rw [List.find?_eq_none]
    intro a ha
    have h2 := (List.mem_filter.mp ha).2
    simp at h2 ⊢
    exact h2
  rw [hnone]
  rfl

theorem fsGet_fsRemove_ne (fs : FileSys) {k k' : String} (h : k ≠ k') :
    fsGet (fsRemove fs k') k = fsGet fs k := by
  unfold fsGet fsRemove
  rw [find?_filter_of_imp _ _ (filter_ne_key_imp h) fs]

theorem ne_append_tmp (s : String) : s ≠ s ++ ".tmp" := by
  intro h
  have hlen := congrArg String.length h
  rw [String.length_append] at hlen
  have h4 : ".tmp".length = 4 := rfl
  omega

/-! ## Claim theorems -/

/-- C2: the trailing-stop exit of the monitoring loop fires only when the
fetched price strictly exceeds the buy (entry) price, because its guard is
`currentPrice < trailingStopPrice AND currentPrice > buyPrice`; hence a
close with `exitReason = trailing_stop` never happens with
`currentPrice ≤ buyPrice`, and this exit path never realizes a loss. -/
theorem trailingStopExit_above_entry (cfg : TradingConfig) (t : TradeStateRt)
    (p : Rat) (now : Nat) (t' : TradeStateRt)
    (h : monitorStep cfg t (some p) now = .exitTrade .trailing_stop t') :
    t.buyPrice < p := by
  unfold monitorStep at h
  dsimp only at h
  split_ifs at h with h1 h2
  · have := h1.2
    rwa [updateOnPrice_buyPrice] at this
  · simp at h

/-- C2 witness: a concrete step (entry 100, trailing stop 135, fetched
price 130) that closes with `trailing_stop`, and indeed 100 < 130. -/
theorem trailingStopExit_above_entry_witness :
    (⟨"AUSDT", 100, 5, 100, 150, 135, 80, 0, 0⟩ : TradeStateRt).buyPrice < 130 :=
  trailingStopExit_above_entry
    { stopLossPct := 20, trailingPct := 10, maxTradeAmount := 10,
      checkInterval := 5, maxRetries := 3, retryDelay := 1, quoteCurrency := "USDT" }
    ⟨"AUSDT", 100, 5, 100, 150, 135, 80, 0, 0⟩ 130 7
    ⟨"AUSDT", 100, 5, 130, 150, 135, 80, 0, 7⟩ (by decide)

/-- C3: with the default grace window of 180 s, `setupListingTimer` on a
job with no armed timer whose target time is more than 180 s in the past
marks it missed (an action that never invokes the executor), and on one
whose target time has passed by at most 180 s invokes the executor
immediately. -/
theorem setupListingTimer_grace_boundary (now listingTime : Nat) :
    (listingTime + defaultSchedulerConfig.maxWaitAfterListing * 1000 < now →
      setupListingTimer defaultSchedulerConfig false now listingTime = .markMissed ∧
      setupInvokesExecutor
        (setupListingTimer defaultSchedulerConfig false now listingTime) = false) ∧
    (listingTime ≤ now →
      now ≤ listingTime + defaultSchedulerConfig.maxWaitAfterListing * 1000 →
      setupListingTimer defaultSchedulerConfig false now listingTime = .executeNow) := by
  constructor
  · intro h
    have h1 : listingTime ≤ now := by omega
    have h2 : ¬ now ≤ listingTime + defaultSchedulerConfig.maxWaitAfterListing * 1000 := by
      omega
    have heq : setupListingTimer defaultSchedulerConfig false now listingTime =
        .markMissed := by
      unfold setupListingTimer
      rw [if_neg (by simp), if_pos h1, if_neg h2]
    exact ⟨heq, by rw [heq]; rfl⟩
  · intro h1 h2
    unfold setupListingTimer
    rw [if_neg (by simp), if_pos h1, if_pos h2]

/-- C3 witness: a job 190 s in the past is marked missed without invoking
the executor; a job 170 s in the past executes immediately. -/
theorem setupListingTimer_grace_boundary_witness :
    (setupListingTimer defaultSchedulerConfig false 190000 0 = .markMissed ∧
      setupInvokesExecutor
        (setupListingTimer defaultSchedulerConfig false 190000 0) = false) ∧
    setupListingTimer defaultSchedulerConfig false 170000 0 = .executeNow :=
  ⟨(setupListingTimer_grace_boundary 190000 0).1 (by decide),
    (setupListingTimer_grace_boundary 170000 0).2 (by decide) (by decide)⟩

/-- C8: calling `startMonitoring` for a symbol that already has a running
monitoring task is a no-op: the returned manager state (active trades and
monitoring tasks alike) is exactly the input state, no second task is
registered, and no exception is thrown (the function is total and takes
the early-return branch). -/
theorem startMonitoring_duplicate_noop (cfg : TradingConfig) (s : ManagerState)
    (symbol : String) (buyPrice quantity : Rat) (now : Nat)
    (h : symbol ∈ s.monitoringTasks) :
    startMonitoring cfg s symbol buyPrice quantity now = s := by
  simp [startMonitoring, h]

/-- C8 witness: a duplicate `startMonitoring` call on a state already
monitoring the symbol leaves the state untouched. -/
theorem startMonitoring_duplicate_noop_witness :
    startMonitoring
      { stopLossPct := 20, trailingPct := 10, maxTradeAmount := 10,
        checkInterval := 5, maxRetries := 3, retryDelay := 1, quoteCurrency := "USDT" }
      ⟨[], ["BTCUSDT"], false⟩ "BTCUSDT" 100 5 0 = ⟨[], ["BTCUSDT"], false⟩ :=
  startMonitoring_duplicate_noop _ _ _ _ _ _ (by decide)

/-- C9: after `restoreMonitoring` restores a persisted open position (for
a symbol not already monitored), the in-memory trade state equals a
freshly started position derived from the persisted `buyPrice` and
`quantity`: `currentPrice` and `highestPrice` are reset to `buyPrice`,
`trailingStopPrice` and `stopLossPrice` are recomputed from `buyPrice`
and the current configuration, and `startTime`/`lastUpdate` are set to
the restore time — never the persisted `currentPrice`, `highestPrice`,
`trailingStopPrice`, `stopLossPrice`, `startTime` values (the last
conjunct: whenever the persisted record has `currentPrice ≠ buyPrice`,
the restored state provably differs from it). -/
theorem restoreMonitoring_resets_state (cfg : TradingConfig) (s : ManagerState)
    (d : SerializedTradeState) (now : Nat) (h : d.market ∉ s.monitoringTasks) :
    tmGet (restoreOne cfg s d now).activeTrades d.market =
      some (freshTrade cfg d.market d.buyPrice d.quantity now) ∧
    (freshTrade cfg d.market d.buyPrice d.quantity now).currentPrice = d.buyPrice ∧
    (freshTrade cfg d.market d.buyPrice d.quantity now).highestPrice = d.buyPrice ∧
    (freshTrade cfg d.market d.buyPrice d.quantity now).trailingStopPrice =
      d.buyPrice * (1 - cfg.trailingPct / 100) ∧
    (freshTrade cfg d.market d.buyPrice d.quantity now).stopLossPrice =
      d.buyPrice * (1 - cfg.stopLossPct / 100) ∧
    (freshTrade cfg d.market d.buyPrice d.quantity now).startTime = now ∧
    (freshTrade cfg d.market d.buyPrice d.quantity now).lastUpdate = now ∧
    (d.currentPrice ≠ d.buyPrice →
      tmGet (restoreOne cfg s d now).activeTrades d.market ≠
        some (deserializeTrade d)) := by
  have hget : tmGet (restoreOne cfg s d now).activeTrades d.market =
      some (freshTrade cfg d.market d.buyPrice d.quantity now) := by
    simp only [restoreOne, startMonitoring, deserializeTrade]
    rw [if_neg h]
    exact tmGet_tmSet_self _ _ _
  refine ⟨hget, rfl, rfl, rfl, rfl, rfl, rfl, fun hne hcontra => ?_⟩
  rw [hget] at hcontra
  have := congrArg (fun o => (o.map TradeStateRt.currentPrice)) hcontra
  simp [freshTrade, deserializeTrade] at this
  exact hne this.symm

/-- C9 witness: a persisted record with `currentPrice = 150`,
`highestPrice = 150`, stale stop prices and an old `startTime` restores,
under a fresh manager, to the freshly recomputed state — not to the
persisted one. -/
theorem restoreMonitoring_resets_state_witness :
    tmGet (restoreOne
        { stopLossPct := 20, trailingPct := 10, maxTradeAmount := 10,
          checkInterval := 5, maxRetries := 3, retryDelay := 1, quoteCurrency := "USDT" }
        ⟨[], [], false⟩ ⟨"AUSDT", 100, 5, 150, 150, 135, 80, 11, 22⟩ 999).activeTrades
      "AUSDT" =
      some (freshTrade
        { stopLossPct := 20, trailingPct := 10, maxTradeAmount := 10,
          checkInterval := 5, maxRetries := 3, retryDelay := 1, quoteCurrency := "USDT" }
        "AUSDT" 100 5 999) :=
  (restoreMonitoring_resets_state _ _ _ _ (by decide)).1

/-- C10: when `getSymbolPrecision` returns `null`, `executeSell` neither
aborts nor rounds — it submits the sell with the full stored quantity;
when a precision `p` is returned, the submitted quantity is the stored
quantity truncated (`ROUND_DOWN`, toward zero — for the nonnegative
quantities at hand, rounded down and never up) to `p` decimal places. -/
theorem executeSell_precision_handling :
    (∀ t : TradeStateRt, executeSellSubmits (some t) none = some t.quantity) ∧
    (∀ (t : TradeStateRt) (p : Nat),
      executeSellSubmits (some t) (some p) = some (toDecimalPlacesDown p t.quantity)) ∧
    (∀ (p : Nat) (q : Rat), 0 ≤ q → toDecimalPlacesDown p q ≤ q) := by
  refine ⟨fun t => rfl, fun t p => rfl, fun p q hq => ?_⟩
  unfold toDecimalPlacesDown truncTowardZero
  have hpow : (0 : Rat) < 10 ^ p := by positivity
  rw [if_pos (by positivity)]
  rw [div_le_iff₀ hpow]
  calc ((⌊q * 10 ^ p⌋ : Int) : Rat) ≤ q * 10 ^ p := Int.floor_le _
  _ = q * 10 ^ p := rfl

/-- C10 witness: a quantity of 10.999 with precision 0 is rounded down,
not up: the submitted quantity is at most the stored quantity. -/
theorem executeSell_precision_handling_witness :
    toDecimalPlacesDown 0 ((10999 : Rat) / 1000) ≤ (10999 : Rat) / 1000 :=
  executeSell_precision_handling.2.2 0 _ (by norm_num)

/-- A trade record (per the `TradeState` shape declared in `types.ts`)
with `investedQuote = 10`. -/
def sampleTradeA : TradeState :=
  ⟨"NEWUSDT", 100, 5, 10, 100, 100, 90, 80, 0, 0⟩

/-- Identical to `sampleTradeA` except `investedQuote = 20`. -/
def sampleTradeB : TradeState :=
  ⟨"NEWUSDT", 100, 5, 20, 100, 100, 90, 80, 0, 0⟩

/-- C6: the round-trip law fails on the code as written.  `types.ts`
declares `investedQuote` on both `TradeState` and `SerializedTradeState`,
but `serializeTrade`'s object literal omits it (a TypeScript type error
in the repository; `index.ts` already passes `investedQuote` into the
manager), so two trade records differing only in `investedQuote`
serialize identically — hence no deserializer, in particular
`deserializeTrade`, can satisfy
`deserializeTrade (serializeTrade t) = t` for every field of the
`TradeState` type. -/
theorem serializeTrade_drops_investedQuote :
    serializeTrade sampleTradeA = serializeTrade sampleTradeB ∧
    sampleTradeA ≠ sampleTradeB := by
  refine ⟨rfl, ?_⟩
  intro h
  have := congrArg TradeState.investedQuote h
  simp [sampleTradeA, sampleTradeB] at this

/-- A sample trading configuration (the test suite's: 20 % stop loss,
10 % trailing stop). -/
def sampleConfig : TradingConfig :=
  { stopLossPct := 20, trailingPct := 10, maxTradeAmount := 10,
    checkInterval := 5, maxRetries := 3, retryDelay := 1, quoteCurrency := "USDT" }

theorem trailingPct_factor_nonneg (cfg : TradingConfig) (h : cfg.trailingPct ≤ 100) :
    (0 : Rat) ≤ 1 - cfg.trailingPct / 100 := by
  have h1 : cfg.trailingPct / 100 ≤ 1 := by
    rw [div_le_one (by norm_num : (0:Rat) < 100)]
    exact h
  linarith

theorem updateOnPrice_inv_mono (cfg : TradingConfig) (h : cfg.trailingPct ≤ 100)
    (t : TradeStateRt) (p : Rat) (n : Nat)
    (hinv : t.trailingStopPrice = t.highestPrice * (1 - cfg.trailingPct / 100)) :
    (updateOnPrice cfg t p n).trailingStopPrice =
      (updateOnPrice cfg t p n).highestPrice * (1 - cfg.trailingPct / 100) ∧
    t.trailingStopPrice ≤ (updateOnPrice cfg t p n).trailingStopPrice := by
  unfold updateOnPrice
  by_cases hlt : t.highestPrice < p
  · rw [if_pos hlt]
    refine ⟨rfl, ?_⟩
    rw [hinv]
    exact mul_le_mul_of_nonneg_right (le_of_lt hlt) (trailingPct_factor_nonneg cfg h)
  · rw [if_neg hlt]
    exact ⟨hinv, le_refl _⟩

theorem monAdvance_inv_mono (cfg : TradingConfig) (h : cfg.trailingPct ≤ 100)
    (now : Nat) (s : MonState) (p? : Option Rat) (hinv : TrailInv cfg s) :
    TrailInv cfg (monAdvance cfg now s p?) ∧
    trailingOf s ≤ trailingOf (monAdvance cfg now s p?) := by
  cases s with
  | closed r t => exact ⟨trivial, le_refl _⟩
  | opened t =>
    cases p? with
    | none => exact ⟨hinv, le_refl _⟩
    | some p =>
      obtain ⟨hinv', hmono⟩ := updateOnPrice_inv_mono cfg h t p now hinv
      unfold monAdvance monitorStep
      dsimp only
      split_ifs with h1 h2
      · exact ⟨trivial, hmono⟩
      · exact ⟨trivial, hmono⟩
      · exact ⟨hinv', hmono⟩

theorem chain'_scanl_of_invariant {α β : Type} (f : β → α → β) (I : β → Prop)
    (R : β → β → Prop) (hstep : ∀ b a, I b → I (f b a) ∧ R b (f b a)) :
    ∀ (l : List α) (b : β), I b → List.Chain' R (List.scanl f b l) := by
  intro l
  induction l with
  | nil => intro b _; simp
  | cons a l ih =>
    intro b hb
    obtain ⟨hI, hR⟩ := hstep b a hb
    rw [List.scanl_cons, List.singleton_append, List.chain'_cons']
    refine ⟨?_, ih (f b a) hI⟩
    intro x hx
    have hhead : (List.scanl f (f b a) l).head? = some (f b a) := by
      cases l <;> simp [List.scanl]
    rw [hhead] at hx
    simp at hx
    subst hx
    exact hR

/-- C1: for every sequence of fetched prices processed by the monitoring
loop (failed fetches included), the position's `trailingStopPrice` is
non-decreasing over the position's lifetime for a fixed `trailingPct`
(any valid percentage, i.e. at most 100): adjacent states of the run are
ordered by trailing-stop price; moreover the trailing stop is recomputed
— to `currentPrice * (1 - trailingPct/100)` — exactly on iterations where
the fetched price strictly exceeds the recorded highest price, and is
left untouched otherwise, so it is never assigned a lower value. -/
theorem trailingStop_monotone (cfg : TradingConfig) (h : cfg.trailingPct ≤ 100)
    (symbol : String) (buyPrice quantity : Rat) (now : Nat)
    (prices : List (Option Rat)) :
    List.Chain' (fun a b => trailingOf a ≤ trailingOf b)
      (monStates cfg symbol buyPrice quantity now prices) ∧
    (∀ (t : TradeStateRt) (p : Rat) (n : Nat), ¬ t.highestPrice < p →
      (updateOnPrice cfg t p n).trailingStopPrice = t.trailingStopPrice) ∧
    (∀ (t : TradeStateRt) (p : Rat) (n : Nat), t.highestPrice < p →
      (updateOnPrice cfg t p n).trailingStopPrice = p * (1 - cfg.trailingPct / 100)) := by
  refine ⟨?_, ?_, ?_⟩
  · unfold monStates
    exact chain'_scanl_of_invariant _ (TrailInv cfg) _
      (fun s p? hs => monAdvance_inv_mono cfg h now s p? hs) prices
      (.opened (freshTrade cfg symbol buyPrice quantity now)) rfl
  · intro t p n hnp
    unfold updateOnPrice
    rw [if_neg hnp]
  · intro t p n hp
    unfold updateOnPrice
    rw [if_pos hp]

/-- C1 witness: the scenario-A price path 100 → 120 → 150 → 140 (with a
failed fetch at the end) under a 10 % trailing stop. -/
theorem trailingStop_monotone_witness :
    List.Chain' (fun a b => trailingOf a ≤ trailingOf b)
      (monStates sampleConfig "AUSDT" 100 5 0 [some 120, some 150, some 140, none]) ∧
    (∀ (t : TradeStateRt) (p : Rat) (n : Nat), ¬ t.highestPrice < p →
      (updateOnPrice sampleConfig t p n).trailingStopPrice = t.trailingStopPrice) ∧
    (∀ (t : TradeStateRt) (p : Rat) (n : Nat), t.highestPrice < p →
      (updateOnPrice sampleConfig t p n).trailingStopPrice =
        p * (1 - sampleConfig.trailingPct / 100)) :=
  trailingStop_monotone sampleConfig (by norm_num [sampleConfig]) "AUSDT" 100 5 0
    [some 120, some 150, some 140, none]

theorem tradeLoopGo_deadline (cfg : SchedulerConfig) (e : Nat → ExecOutcome)
    (start fuel clock attempts : Nat) (last : Option Nat)
    (hc : ¬ clock - start < cfg.maxWaitAfterListing * 1000) :
    tradeLoopGo cfg e start fuel clock attempts last =
      some ⟨.missed, attempts, last, clock⟩ := by
  cases fuel <;> simp only [tradeLoopGo] <;> rw [if_neg hc]

theorem tradeLoopGo_step_fail (cfg : SchedulerConfig) (e : Nat → ExecOutcome)
    (start fuel clock attempts : Nat) (last : Option Nat)
    (hc : clock - start < cfg.maxWaitAfterListing * 1000)
    (hf : e (attempts + 1) ≠ .ok true) :
    tradeLoopGo cfg e start (fuel + 1) clock attempts last =
      tradeLoopGo cfg e start fuel (clock + cfg.retryInterval) (attempts + 1)
        (some clock) := by
  simp only [tradeLoopGo]
  rw [if_pos hc]
  cases he : e (attempts + 1) with
  | ok b =>
    cases b with
    | true => exact absurd he hf
    | false => rfl
  | thrown => rfl

theorem tradeLoopGo_step_succeed (cfg : SchedulerConfig) (e : Nat → ExecOutcome)
    (start fuel clock attempts : Nat) (last : Option Nat)
    (hc : clock - start < cfg.maxWaitAfterListing * 1000)
    (hs : e (attempts + 1) = .ok true) :
    tradeLoopGo cfg e start (fuel + 1) clock attempts last =
      some ⟨.completed, attempts + 1, some clock, clock⟩ := by
  simp only [tradeLoopGo]
  rw [if_pos hc, hs]

theorem tradeLoopGo_total (cfg : SchedulerConfig) (e : Nat → ExecOutcome)
    (start : Nat) :
    ∀ (fuel clock attempts : Nat) (last : Option Nat),
      start + cfg.maxWaitAfterListing * 1000 ≤ clock + cfg.retryInterval * fuel →
      (tradeLoopGo cfg e start fuel clock attempts last).isSome = true := by
  intro fuel
  induction fuel with
  | zero =>
    intro clock attempts last hb
    rw [tradeLoopGo_deadline cfg e start 0 clock attempts last (by omega)]
    rfl
  | succ f ih =>
    intro clock attempts last hb
    have hsplit : cfg.retryInterval * (f + 1) = cfg.retryInterval * f + cfg.retryInterval := by
      rw [Nat.mul_add, Nat.mul_one]
    by_cases hc : clock - start < cfg.maxWaitAfterListing * 1000
    · cases he : e (attempts + 1) with
      | ok b =>
        cases b with
        | true =>
          rw [tradeLoopGo_step_succeed cfg e start f clock attempts last hc he]
          rfl
        | false =>
          rw [tradeLoopGo_step_fail cfg e start f clock attempts last hc (by rw [he]; simp)]
          exact ih (clock + cfg.retryInterval) (attempts + 1) (some clock) (by omega)
      | thrown =>
        rw [tradeLoopGo_step_fail cfg e start f clock attempts last hc (by rw [he]; simp)]
        exact ih (clock + cfg.retryInterval) (attempts + 1) (some clock) (by omega)
    · rw [tradeLoopGo_deadline cfg e start (f + 1) clock attempts last hc]
      rfl

theorem tradeLoopGo_result (cfg : SchedulerConfig) (e : Nat → ExecOutcome)
    (start : Nat) :
    ∀ (fuel clock attempts : Nat) (last : Option Nat) (r : ExecResult),
      tradeLoopGo cfg e start fuel clock attempts last = some r →
      (r.status = .completed ∨ r.status = .missed) ∧
      ((∀ i, e i ≠ .ok true) → r.status = .missed) ∧
      ((∀ t1, last = some t1 → t1 < start + cfg.maxWaitAfterListing * 1000) →
        ∀ t0, r.lastCallTime = some t0 →
          t0 < start + cfg.maxWaitAfterListing * 1000) := by
  intro fuel
  induction fuel with
  | zero =>
    intro clock attempts last r h
    by_cases hc : clock - start < cfg.maxWaitAfterListing * 1000
    · simp only [tradeLoopGo] at h
      rw [if_pos hc] at h
      exact absurd h (by simp)
    · rw [tradeLoopGo_deadline cfg e start 0 clock attempts last hc] at h
      obtain rfl : r = ⟨.missed, attempts, last, clock⟩ := by
        injection h with h'
        exact h'.symm
      exact ⟨Or.inr rfl, fun _ => rfl, fun hl t0 ht0 => hl t0 ht0⟩
  | succ f ih =>
    intro clock attempts last r h
    by_cases hc : clock - start < cfg.maxWaitAfterListing * 1000
    · cases he : e (attempts + 1) with
      | ok b =>
        cases b with
        | true =>
          rw [tradeLoopGo_step_succeed cfg e start f clock attempts last hc he] at h
          obtain rfl : r = ⟨.completed, attempts + 1, some clock, clock⟩ := by
            injection h with h'
            exact h'.symm
          refine ⟨Or.inl rfl, fun hnever => absurd he (hnever _), fun hl t0 ht0 => ?_⟩
          obtain rfl : t0 = clock := by
            injection ht0 with h'
            exact h'.symm
          omega
        | false =>
          rw [tradeLoopGo_step_fail cfg e start f clock attempts last hc
            (by rw [he]; simp)] at h
          have hres := ih (clock + cfg.retryInterval) (attempts + 1) (some clock) r h
          refine ⟨hres.1, hres.2.1, fun hl => hres.2.2 ?_⟩
          intro t1 ht1
          obtain rfl : t1 = clock := by
            injection ht1 with h'
            exact h'.symm
          omega
      | thrown =>
        rw [tradeLoopGo_step_fail cfg e start f clock attempts last hc
          (by rw [he]; simp)] at h
        have hres := ih (clock + cfg.retryInterval) (attempts + 1) (some clock) r h
        refine ⟨hres.1, hres.2.1, fun hl => hres.2.2 ?_⟩
        intro t1 ht1
        obtain rfl : t1 = clock := by
          injection ht1 with h'
          exact h'.symm
        omega
    · rw [tradeLoopGo_deadline cfg e start (f + 1) clock attempts last hc] at h
      obtain rfl : r = ⟨.missed, attempts, last, clock⟩ := by
        injection h with h'
        exact h'.symm
      exact ⟨Or.inr rfl, fun _ => rfl, fun hl t0 ht0 => hl t0 ht0⟩

/-- C4 counterexample: the claim's deadline `targetTime + G` is not the
code's.  A job with `targetTime = 0` restarted 170 s late is legitimately
executed immediately (`setupListingTimer` returns `executeNow`, first
conjunct), and the loop's deadline is then measured from its own start:
with an executor that fails 150 times and succeeds on call 151, the code
invokes the executor at wall clock 185 000 ms — strictly after
`targetTime + G = 180 000 ms`, when the claim says calls have stopped —
and ends `completed` after 151 invocations, not `missed` at the claimed
deadline. -/
theorem executeScheduledTrade_deadline_counterexample :
    setupListingTimer defaultSchedulerConfig false 170000 0 = .executeNow ∧
    executeScheduledTrade defaultSchedulerConfig
        (fun i => .ok (decide (151 ≤ i))) 170000 =
      some ⟨.completed, 151, some 185000, 185000⟩ ∧
    0 + defaultSchedulerConfig.maxWaitAfterListing * 1000 < 185000 := by
  decide

/-- C4 (amended): the executor is called repeatedly at the fixed retry
interval until it returns true or the wall-clock deadline
`startTime + G` is reached, where `startTime` is the moment the execution
loop begins (equal to `targetTime` when the timer fires on time, but later
when execution starts late within the grace window); a thrown/rejected
executor call counts as a failed attempt and is not fatal (the loop always
returns a result); if the executor returns false, false, then true on
three successive calls, the job ends `completed` with the executor invoked
exactly 3 times; on deadline exhaustion the job is marked `missed`; every
executor invocation happens strictly before `startTime + G`. -/
theorem executeScheduledTrade_retry_loop (e : Nat → ExecOutcome) (start : Nat) :
    (∃ r, executeScheduledTrade defaultSchedulerConfig e start = some r ∧
      (r.status = .completed ∨ r.status = .missed) ∧
      ((∀ i, e i ≠ .ok true) → r.status = .missed) ∧
      (∀ t0, r.lastCallTime = some t0 →
        t0 < start + defaultSchedulerConfig.maxWaitAfterListing * 1000)) ∧
    ((e 1 ≠ .ok true ∧ e 2 ≠ .ok true ∧ e 3 = .ok true) →
      executeScheduledTrade defaultSchedulerConfig e start =
        some ⟨.completed, 3, some (start + 200), start + 200⟩) := by
  constructor
  · have htot := tradeLoopGo_total defaultSchedulerConfig e start
      (defaultSchedulerConfig.maxWaitAfterListing * 1000 + 1) start 0 none
      (by simp only [defaultSchedulerConfig]; omega)
    rw [Option.isSome_iff_exists] at htot
    obtain ⟨r, hr⟩ := htot
    have hres := tradeLoopGo_result defaultSchedulerConfig e start
      (defaultSchedulerConfig.maxWaitAfterListing * 1000 + 1) start 0 none r hr
    exact ⟨r, hr, hres.1, hres.2.1,
      hres.2.2 (fun t1 ht1 => by exact absurd ht1 (by simp))⟩
  · rintro ⟨h1, h2, h3⟩
    unfold executeScheduledTrade
    rw [show defaultSchedulerConfig.maxWaitAfterListing * 1000 + 1 =
      179998 + 1 + 1 + 1 from rfl]
    rw [tradeLoopGo_step_fail _ _ _ _ _ _ _
      (by simp only [defaultSchedulerConfig]; omega) h1]
    rw [show defaultSchedulerConfig.retryInterval = 100 from rfl]
    rw [tradeLoopGo_step_fail _ _ _ _ _ _ _
      (by simp only [defaultSchedulerConfig]; omega) h2]
    rw [show defaultSchedulerConfig.retryInterval = 100 from rfl]
    rw [tradeLoopGo_step_succeed _ _ _ _ _ _ _
      (by simp only [defaultSchedulerConfig]; omega) h3]

/-- C4 witness: a concrete executor failing twice (once by throwing) then
succeeding: the job completes with exactly 3 invocations; an executor
that always fails ends missed. -/
theorem executeScheduledTrade_retry_loop_witness :
    executeScheduledTrade defaultSchedulerConfig
        (fun i => if i = 1 then .ok false else if i = 2 then .thrown else .ok true) 0 =
      some ⟨.completed, 3, some 200, 200⟩ :=
  (executeScheduledTrade_retry_loop
      (fun i => if i = 1 then .ok false else if i = 2 then .thrown else .ok true) 0).2
    ⟨by decide, by decide, by decide⟩

/-- C7 counterexample: the claim as stated says a failed save leaves the
previously committed value readable.  Injecting a failure at the rename
step (after the temp write and the unlink of the old target have both
succeeded) makes `saveJson` propagate the error and clean up its temp
file — but the previously committed value has already been unlinked: the
key reads back as absent, not as the old value. -/
theorem saveJson_rename_failure_loses_value :
    (saveJson [("k", "old")] "k" "new"
        { writeTempFails := false, unlinkTargetFails := false,
          renameFails := true, cleanupUnlinkFails := false }).2 = .error () ∧
    fsGet (saveJson [("k", "old")] "k" "new"
        { writeTempFails := false, unlinkTargetFails := false,
          renameFails := true, cleanupUnlinkFails := false }).1 "k" = none ∧
    ¬ fsGet (saveJson [("k", "old")] "k" "new"
        { writeTempFails := false, unlinkTargetFails := false,
          renameFails := true, cleanupUnlinkFails := false }).1 "k" = some "old" := by
  decide

/-- C7 (amended): `saveJson` writes the value to a temporary file,
removes any existing target, then renames the temporary file into place.
On a failure-free run the new value is committed and the temp file is
gone.  If the temp-file write itself fails, the temp file is cleaned up,
the error propagates, and the previously committed value remains intact.
Any failing run propagates its error and (when the cleanup unlink itself
does not fail) removes the temp file.  The target is never left with a
corrupted value: after any run it holds the old committed value, nothing,
or the full new value — but a failure at the rename step, after the old
target was unlinked, can leave the key absent (the previously committed
value is not readable in that one case; it is never corrupted). -/
theorem saveJson_atomic (fs : FileSys) (name content : String) (f : SaveFailure) :
    (f = noFailure →
      (saveJson fs name content f).2 = .ok () ∧
      fsGet (saveJson fs name content f).1 name = some content ∧
      fsGet (saveJson fs name content f).1 (name ++ ".tmp") = none) ∧
    (f.writeTempFails = true →
      (saveJson fs name content f).2 = .error () ∧
      fsGet (saveJson fs name content f).1 name = fsGet fs name) ∧
    ((saveJson fs name content f).2 = .ok () →
      fsGet (saveJson fs name content f).1 name = some content) ∧
    (fsGet (saveJson fs name content f).1 name = fsGet fs name ∨
      fsGet (saveJson fs name content f).1 name = none ∨
      fsGet (saveJson fs name content f).1 name = some content) ∧
    ((saveJson fs name content f).2 = .error () → f.cleanupUnlinkFails = false →
      fsGet (saveJson fs name content f).1 (name ++ ".tmp") = none) := by
  obtain ⟨w, u, r, c⟩ := f
  have hne : name ≠ name ++ ".tmp" := ne_append_tmp name
  cases hfg : fsGet fs name <;> cases w <;> cases u <;> cases r <;> cases c <;>
    simp [saveJson, noFailure, hfg, fsGet_fsSet_self, fsGet_fsSet_ne _ hne,
      fsGet_fsRemove_self, fsGet_fsRemove_ne _ hne,
      fsGet_fsSet_ne _ (Ne.symm hne), fsGet_fsRemove_ne _ (Ne.symm hne)]

/-- C7 witness: a failure-free save of "new" over "old" commits the
new value atomically and leaves no temp file; a save whose temp-file
write fails keeps the old value readable. -/
theorem saveJson_atomic_witness :
    ((saveJson [("k", "old")] "k" "new" noFailure).2 = .ok () ∧
      fsGet (saveJson [("k", "old")] "k" "new" noFailure).1 "k" = some "new" ∧
      fsGet (saveJson [("k", "old")] "k" "new" noFailure).1 ("k" ++ ".tmp") = none) ∧
    fsGet (saveJson [("k", "old")] "k" "new"
        { writeTempFails := true, unlinkTargetFails := false,
          renameFails := false, cleanupUnlinkFails := false }).1 "k" =
      fsGet [("k", "old")] "k" := by
  refine ⟨?_, ?_⟩
  · exact (saveJson_atomic [("k", "old")] "k" "new" noFailure).1 rfl
  · exact ((saveJson_atomic [("k", "old")] "k" "new"
      { writeTempFails := true, unlinkTargetFails := false,
        renameFails := false, cleanupUnlinkFails := false }).2.1 rfl).2


theorem rlPrune_collapse (window : Nat) {n1 n2 : Nat} (h : n1 ≤ n2) (l : List Nat) :
    rlPrune window n2 (rlPrune window n1 l) = rlPrune window n2 l := by
  unfold rlPrune
  rw [List.filter_filter]
  apply List.filter_congr
  intro a _
  by_cases h2 : n2 - a < window
  · have h1 : n1 - a < window := by omega
    simp [h1, h2]
  · simp [h2]

theorem rlAcquireGo_ok (limit window : Nat) (hl : 0 < limit) (hw : 0 < window) :
    ∀ (fuel now : Nat) (reqs hist : List Nat),
      (∀ t ∈ hist, t ≤ now) →
      rlPrune window now reqs = rlPrune window now hist →
      (∀ s, windowCount window hist s ≤ limit) →
      (rlPrune window now reqs).length < fuel →
      ∃ reqs' t',
        rlAcquireGo limit window fuel reqs now = some (.ok (reqs', t')) ∧
        now ≤ t' ∧
        (∀ t ∈ hist ++ [t'], t ≤ t') ∧
        rlPrune window t' reqs' = rlPrune window t' (hist ++ [t']) ∧
        (∀ s, windowCount window (hist ++ [t']) s ≤ limit) := by
  intro fuel
  induction fuel with
  | zero =>
    intro now reqs hist _ _ _ hf
    exact absurd hf (Nat.not_lt_zero _)
  | succ f ih =>
    intro now reqs hist hbound hpr hcnt hf
    by_cases hge : limit ≤ (rlPrune window now reqs).length
    · have hne : rlPrune window now reqs ≠ [] := by
        intro h0
        rw [h0] at hge
        simp at hge
        omega
      obtain ⟨oldest, rest, hcons⟩ := List.exists_cons_of_ne_nil hne
      have hmem : oldest ∈ rlPrune window now hist := by
        rw [← hpr, hcons]
        exact List.mem_cons_self _ _
      have hmf := List.mem_filter.mp hmem
      have hohist : oldest ∈ hist := hmf.1
      have hofresh : now - oldest < window := by simpa using hmf.2
      have hole : oldest ≤ now := hbound oldest hohist
      have hlt : now ≤ now + (window - (now - oldest)) := Nat.le_add_right _ _
      have hstep : rlAcquireGo limit window (f + 1) reqs now =
          rlAcquireGo limit window f (rlPrune window now reqs)
            (now + (window - (now - oldest))) := by
        simp only [rlAcquireGo]
        rw [if_pos hge, hcons]
      have hbound' : ∀ t ∈ hist, t ≤ now + (window - (now - oldest)) :=
        fun t ht => le_trans (hbound t ht) hlt
      have hpr' : rlPrune window (now + (window - (now - oldest)))
            (rlPrune window now reqs) =
          rlPrune window (now + (window - (now - oldest))) hist := by
        calc rlPrune window (now + (window - (now - oldest))) (rlPrune window now reqs)
            = rlPrune window (now + (window - (now - oldest)))
                (rlPrune window now hist) := by rw [hpr]
          _ = rlPrune window (now + (window - (now - oldest))) hist :=
              rlPrune_collapse window hlt hist
      have hfuel' : (rlPrune window (now + (window - (now - oldest)))
          (rlPrune window now reqs)).length < f := by
        have hdrop : rlPrune window (now + (window - (now - oldest)))
            (oldest :: rest) =
            rlPrune window (now + (window - (now - oldest))) rest := by
          unfold rlPrune
          rw [List.filter_cons]
          have hnd : ¬ (now + (window - (now - oldest)) - oldest < window) := by omega
          simp [hnd]
        rw [hcons, hdrop]
        have hlen1 : (rlPrune window (now + (window - (now - oldest))) rest).length ≤
            rest.length := List.length_filter_le _ _
        have hlen2 : (oldest :: rest).length < f + 1 := by rw [← hcons]; exact hf
        simp at hlen2
        omega
      obtain ⟨reqs', t', heq, hle', hbound'', hpr'', hcnt''⟩ :=
        ih (now + (window - (now - oldest))) (rlPrune window now reqs) hist
          hbound' hpr' hcnt hfuel'
      exact ⟨reqs', t', by rw [hstep]; exact heq, le_trans hlt hle',
        hbound'', hpr'', hcnt''⟩
    · push_neg at hge
      refine ⟨rlPrune window now reqs ++ [now], now, ?_, le_refl _, ?_, ?_, ?_⟩
      · simp only [rlAcquireGo]
        rw [if_neg (by omega)]
      · intro t ht
        rcases List.mem_append.mp ht with h | h
        · exact hbound t h
        · simp at h
          omega
      · have e1 : rlPrune window now (rlPrune window now reqs ++ [now]) =
            rlPrune window now (rlPrune window now reqs) ++
              rlPrune window now [now] := by
          unfold rlPrune
          rw [List.filter_append]
        have e2 : rlPrune window now (rlPrune window now reqs) =
            rlPrune window now reqs :=
          rlPrune_collapse window (le_refl now) reqs
        have e3 : rlPrune window now [now] = [now] := by
          unfold rlPrune
          simp [hw]
        have e4 : rlPrune window now (hist ++ [now]) =
            rlPrune window now hist ++ [now] := by
          unfold rlPrune
          rw [List.filter_append]
          simp [hw]
        rw [e1, e2, e3, e4, hpr]
      · intro s
        unfold windowCount
        rw [List.filter_append, List.length_append]
        by_cases hpred : now ≤ s ∧ s < now + window
        · have hsing : (List.filter (fun t => decide (t ≤ s ∧ s < t + window))
              [now]).length = 1 := by
            simp [hpred]
          have hmono : (List.filter (fun t => decide (t ≤ s ∧ s < t + window))
              hist).length ≤
              (List.filter (fun t => decide (now - t < window)) hist).length := by
            rw [← List.countP_eq_length_filter, ← List.countP_eq_length_filter]
            apply List.countP_mono_left
            intro a ha hpa
            have hp : a ≤ s ∧ s < a + window := of_decide_eq_true hpa
            have haN : a ≤ now := hbound a ha
            simp only [decide_eq_true_eq]
            omega
          have hhist : (List.filter (fun t => decide (now - t < window))
              hist).length < limit := by
            have hrw : List.filter (fun t => decide (now - t < window)) hist =
                rlPrune window now reqs := hpr.symm
            rw [hrw]
            exact hge
          omega
        · have hz : (List.filter (fun t => decide (t ≤ s ∧ s < t + window))
              [now]).length = 0 := by
            simp [hpred]
          have hc := hcnt s
          unfold windowCount at hc
          omega

theorem rlRun_ok (limit window : Nat) (hl : 0 < limit) (hw : 0 < window) :
    ∀ (deltas reqs hist : List Nat) (clock : Nat),
      (∀ t ∈ hist, t ≤ clock) →
      rlPrune window clock reqs = rlPrune window clock hist →
      (∀ s, windowCount window hist s ≤ limit) →
      ∃ hist', rlRun limit window deltas reqs clock hist = some (.ok hist') ∧
        (∀ s, windowCount window hist' s ≤ limit) := by
  intro deltas
  induction deltas with
  | nil =>
    intro reqs hist clock _ _ h3
    exact ⟨hist, rfl, h3⟩
  | cons d ds ih =>
    intro reqs hist clock h1 h2 h3
    have hlt : clock ≤ clock + d := Nat.le_add_right _ _
    have h1' : ∀ t ∈ hist, t ≤ clock + d := fun t ht => le_trans (h1 t ht) hlt
    have h2' : rlPrune window (clock + d) reqs = rlPrune window (clock + d) hist := by
      calc rlPrune window (clock + d) reqs
          = rlPrune window (clock + d) (rlPrune window clock reqs) :=
            (rlPrune_collapse window hlt reqs).symm
        _ = rlPrune window (clock + d) (rlPrune window clock hist) := by rw [h2]
        _ = rlPrune window (clock + d) hist := rlPrune_collapse window hlt hist
    have hfuel : (rlPrune window (clock + d) reqs).length < reqs.length + 1 := by
      have hfl := List.length_filter_le
        (fun t => decide (clock + d - t < window)) reqs
      unfold rlPrune
      omega
    obtain ⟨reqs', t', heq, _, hb', hp', hc'⟩ :=
      rlAcquireGo_ok limit window hl hw (reqs.length + 1) (clock + d) reqs hist
        h1' h2' h3 hfuel
    obtain ⟨hist', hrun, hcnt'⟩ := ih reqs' (hist ++ [t']) t' hb' hp' hc'
    refine ⟨hist', ?_, hcnt'⟩
    simp only [rlRun, rlAcquire]
    rw [heq]
    exact hrun

/-- C5: for every sequence of `acquire()` calls (arbitrary gaps between
calls, including back-to-back) against a limiter with limit `N ≥ 1` and
window `W ≥ 1`, every call returns normally — `acquire` never fails, it
only delays (the run never hits the code's defensive throw and never
diverges) — and the recorded request-initiation history puts at most `N`
initiations inside any trailing window `(s - W, s]`. -/
theorem rateLimiter_window_bound (limit window : Nat) (hl : 0 < limit)
    (hw : 0 < window) (deltas : List Nat) (start : Nat) :
    ∃ hist, rlRun limit window deltas [] start [] = some (.ok hist) ∧
      ∀ s, windowCount window hist s ≤ limit :=
  rlRun_ok limit window hl hw deltas [] [] start
    (by intro t ht; simp at ht) rfl
    (by intro s; simp [windowCount])

/-- C5 witness: scenario D — limit 2 per 1000 ms window, three
back-to-back `acquire()` calls starting at time 0: the run satisfies the
window bound, and concretely the recorded initiation times are
[0, 0, 1000]: the third call does not return before 1000 ms have elapsed
since the first. -/
theorem rateLimiter_window_bound_witness :
    (∃ hist, rlRun 2 1000 [0, 0, 0] [] 0 [] = some (.ok hist) ∧
      ∀ s, windowCount 1000 hist s ≤ 2) ∧
    rlRun 2 1000 [0, 0, 0] [] 0 [] = some (.ok [0, 0, 1000]) :=
  ⟨rateLimiter_window_bound 2 1000 (by decide) (by decide) [0, 0, 0] 0, by decide⟩

end CryptoBot
